import Mathlib

/-!
Verification of the quad-to-double narrowing routine of compiler-rt as
vendored in this repository (trunctfdf2.c). The file in the tree only wraps
the generic algorithm body: __trunctfdf2 returns __truncXfYf2__ applied to
its argument, with the generic body included from fp_trunc_impl.inc, which
is not part of the tree. The conversion pipeline (decompose, round and
rebias, pack) is therefore modelled from the specification, over natural
numbers standing for raw bit patterns.
-/

/-- Modelled from the spec: a FormatDescriptor records an IEEE-754 binary
interchange layout (spec section 3); the header fp_lib.h carrying these
constants is missing from the tree. -/
structure FormatDescriptor where
  totalBits : Nat
  mantissaBits : Nat
  exponentBits : Nat
  exponentBias : Nat

/-- Modelled from the spec: the quad-precision descriptor
(mantissaBits = 112, exponentBits = 15, bias = 16383). -/
def quadFmt : FormatDescriptor := ⟨128, 112, 15, 16383⟩

/-- Modelled from the spec: the double-precision descriptor
(mantissaBits = 52, exponentBits = 11, bias = 1023). -/
def doubleFmt : FormatDescriptor := ⟨64, 52, 11, 1023⟩

/-- Modelled from the spec: the five classes of a decomposed value
(spec section 3). -/
inductive FpClass where
  | Zero
  | Subnormal
  | Normal
  | Infinity
  | NaN

/-- Modelled from the spec: transient record produced by the Decomposer
(spec section 3). -/
structure Decomposed where
  sign : Nat
  exponentField : Nat
  mantissaField : Nat
  cls : FpClass

/-- Modelled from the spec: classification rule of the Decomposer (spec
section 4.1): exponent field zero gives Zero or Subnormal, exponent field
all-ones gives Infinity or NaN, anything else is Normal. -/
def classify (fmt : FormatDescriptor) (expF mantF : Nat) : FpClass :=
  if expF = 0 then (if mantF = 0 then .Zero else .Subnormal)
  else if expF = 2 ^ fmt.exponentBits - 1 then (if mantF = 0 then .Infinity else .NaN)
  else .Normal

/-- Modelled from the spec: the Decomposer (spec section 4.1); sign is the
top bit, the exponent field sits below it, the mantissa field holds the low
bits. The concrete bit-manipulation body (__truncXfYf2__ in
fp_trunc_impl.inc) is missing from the tree. -/
def decompose (fmt : FormatDescriptor) (x : Nat) : Decomposed :=
  { sign := x / 2 ^ (fmt.totalBits - 1) % 2
    exponentField := x / 2 ^ fmt.mantissaBits % 2 ^ fmt.exponentBits
    mantissaField := x % 2 ^ fmt.mantissaBits
    cls := classify fmt (x / 2 ^ fmt.mantissaBits % 2 ^ fmt.exponentBits) (x % 2 ^ fmt.mantissaBits) }

/-- Modelled from the spec: round-to-nearest-even of spec section 4.2. The
significand sig is truncated by shift bits; the result is rounded up by one
exactly when the round bit (highest discarded bit) is 1 and either the
sticky bit (or of all lower discarded bits) is 1 or the lowest retained
mantissa bit is 1. -/
def roundNearestEven (sig shift : Nat) : Nat :=
  if sig / 2 ^ (shift - 1) % 2 = 1 ∧ (sig % 2 ^ (shift - 1) ≠ 0 ∨ sig / 2 ^ shift % 2 = 1)
  then sig / 2 ^ shift + 1
  else sig / 2 ^ shift

/-- Modelled from the spec: the Rounding and Rebiasing Engine together with
the Normal/Subnormal packing rule (spec sections 4.2 and 4.3), on the
absolute value; the caller adds the sign bit. The rebased exponent is
e + destination bias. Overflow fires when the rebased exponent reaches the
all-ones exponent code 2 ^ exponentBits - 1: spec section 8 places the
boundary at unbiased exponent 1024 for double, the first code past the
maximum finite one. When the rebased exponent is zero or below, the
mantissa is shifted by 1 - destExponent additional bits and the exponent
field is clamped to zero, flushing to zero once the additional shift
exceeds the destination mantissa width. The round-up carry out of the
mantissa field is absorbed by the final addition: a carry lands in the
exponent field, and a carry at the maximum finite exponent produces exactly
the Infinity pattern, as spec section 4.2 requires. -/
def packFinite (srcF dstF : FormatDescriptor) (e : Int) (sig : Nat) : Nat :=
  if (2 ^ dstF.exponentBits - 1 : Int) ≤ e + dstF.exponentBias then
    (2 ^ dstF.exponentBits - 1) * 2 ^ dstF.mantissaBits
  else if e + dstF.exponentBias ≤ 0 then
    if dstF.mantissaBits < (1 - (e + dstF.exponentBias)).toNat then 0
    else roundNearestEven sig
      (srcF.mantissaBits - dstF.mantissaBits + (1 - (e + dstF.exponentBias)).toNat)
  else
    (e + dstF.exponentBias).toNat * 2 ^ dstF.mantissaBits
      + roundNearestEven sig (srcF.mantissaBits - dstF.mantissaBits)
      - 2 ^ dstF.mantissaBits

/-- Modelled from the spec: Packer rule for NaN (spec section 4.3): exponent
field all-ones, mantissa field the source NaN mantissa truncated to the
destination width with the top mantissa bit forced to 1. -/
def packNaN (srcF dstF : FormatDescriptor) (mantF : Nat) : Nat :=
  (2 ^ dstF.exponentBits - 1) * 2 ^ dstF.mantissaBits
    + (mantF / 2 ^ (srcF.mantissaBits - dstF.mantissaBits) % 2 ^ dstF.mantissaBits
        ||| 2 ^ (dstF.mantissaBits - 1))

/-- Modelled from the spec: Packer rule for Infinity (spec section 4.3):
exponent field all-ones, mantissa field zero. -/
def packInfinity (dstF : FormatDescriptor) : Nat :=
  (2 ^ dstF.exponentBits - 1) * 2 ^ dstF.mantissaBits

/-- Modelled from the spec: dispatch on the class of the decomposed value
(spec sections 4.2 and 4.3), producing the destination pattern without its
sign bit. A Normal value regains its implicit leading mantissa bit and has
unbiased exponent exponentField - bias; a Subnormal value keeps an implicit
leading 0 and has unbiased exponent 1 - bias. -/
def packClass (srcF dstF : FormatDescriptor) (mantF : Nat) : FpClass → Nat → Nat
  | .Zero, _ => 0
  | .Infinity, _ => packInfinity dstF
  | .NaN, _ => packNaN srcF dstF mantF
  | .Normal, expF => packFinite srcF dstF ((expF : Int) - srcF.exponentBias) (mantF + 2 ^ srcF.mantissaBits)
  | .Subnormal, _ => packFinite srcF dstF (1 - (srcF.exponentBias : Int)) mantF

/-- Modelled from the spec: the generic narrowing routine __truncXfYf2__ of
fp_trunc_impl.inc, which is missing from the tree; per spec section 2 it
decomposes the source value, rounds to the target precision, and repacks
into the target bit pattern, forwarding the sign on every path. -/
def truncXfYf2 (srcF dstF : FormatDescriptor) (x : Nat) : Nat :=
  (decompose srcF x).sign * 2 ^ (dstF.totalBits - 1)
    + packClass srcF dstF (decompose srcF x).mantissaField (decompose srcF x).cls
        (decompose srcF x).exponentField

/-- Embedding of __trunctfdf2 from trunctfdf2.c: the generic routine
instantiated at quad source and double destination. -/
def trunctfdf2 (x : Nat) : Nat := truncXfYf2 quadFmt doubleFmt x

/-- Modelled from the spec: the semantic name of the exported operation
(spec section 6), narrow(source bits) = destination bits. -/
def narrow (x : Nat) : Nat := trunctfdf2 x

/-- Helper: the destination pattern without its sign bit, as a function of
the source exponent and mantissa fields. -/
def absNarrow (expF mantF : Nat) : Nat :=
  packClass quadFmt doubleFmt mantF (classify quadFmt expF mantF) expF

lemma narrow_decomp (s e m : Nat) (hs : s < 2) (he : e < 2 ^ 15) (hm : m < 2 ^ 112) :
    narrow (s * 2 ^ 127 + e * 2 ^ 112 + m) = s * 2 ^ 63 + absNarrow e m := by
  have hsign : (s * 2 ^ 127 + e * 2 ^ 112 + m) / 2 ^ 127 % 2 = s := by omega
  have hexp : (s * 2 ^ 127 + e * 2 ^ 112 + m) / 2 ^ 112 % 2 ^ 15 = e := by omega
  have hmant : (s * 2 ^ 127 + e * 2 ^ 112 + m) % 2 ^ 112 = m := by omega
  unfold narrow trunctfdf2 truncXfYf2 absNarrow decompose
  simp only [quadFmt, doubleFmt]
  rw [hsign, hexp, hmant]

lemma decomp_exists (x : Nat) (hx : x < 2 ^ 128) :
    ∃ s e m, s < 2 ∧ e < 2 ^ 15 ∧ m < 2 ^ 112 ∧ x = s * 2 ^ 127 + e * 2 ^ 112 + m :=
  ⟨x / 2 ^ 127, x / 2 ^ 112 % 2 ^ 15, x % 2 ^ 112, by omega, by omega, by omega, by omega⟩

lemma classify_quad_normal (e m : Nat) (h1 : 1 ≤ e) (h2 : e ≤ 32766) :
    classify quadFmt e m = FpClass.Normal := by
  unfold classify
  rw [if_neg (by omega), if_neg (by simp only [quadFmt]; omega)]

lemma absNarrow_expZero (m : Nat) : absNarrow 0 m = 0 := by
  unfold absNarrow classify
  by_cases hm : m = 0
  · simp [hm, packClass]
  · simp only [hm, if_pos rfl, if_neg hm, packClass, packFinite, quadFmt, doubleFmt]
    norm_num

lemma absNarrow_normal (e m : Nat) (h1 : 1 ≤ e) (h2 : e ≤ 32766) :
    absNarrow e m = packFinite quadFmt doubleFmt ((e : Int) - 16383) (m + 2 ^ 112) := by
  unfold absNarrow
  rw [classify_quad_normal e m h1 h2]
  simp only [packClass, quadFmt]
  norm_num

lemma absNarrow_inf : absNarrow 32767 0 = packInfinity doubleFmt := by
  unfold absNarrow classify
  norm_num [quadFmt, packClass]

lemma absNarrow_nan (m : Nat) (hm : m ≠ 0) :
    absNarrow 32767 m = packNaN quadFmt doubleFmt m := by
  unfold absNarrow classify
  rw [if_neg (by omega), if_pos (by simp only [quadFmt]; norm_num)]
  simp only [if_neg hm, packClass]

lemma packFinite_overflow (e : Int) (sig : Nat) (h : 2047 ≤ e + 1023) :
    packFinite quadFmt doubleFmt e sig = 2047 * 2 ^ 52 := by
  unfold packFinite
  simp only [quadFmt, doubleFmt]
  rw [if_pos (by norm_num; omega)]
  norm_num

lemma packFinite_flush (e : Int) (sig : Nat) (h : e + 1023 ≤ -52) :
    packFinite quadFmt doubleFmt e sig = 0 := by
  unfold packFinite
  simp only [quadFmt, doubleFmt]
  rw [if_neg (by norm_num; omega), if_pos (by omega), if_pos (by omega)]

lemma packFinite_subnormalRange (e : Int) (sig : Nat) (h1 : e + 1023 ≤ 0) (h2 : -51 ≤ e + 1023) :
    packFinite quadFmt doubleFmt e sig
      = roundNearestEven sig (60 + (1 - (e + 1023)).toNat) := by
  unfold packFinite
  simp only [quadFmt, doubleFmt]
  rw [if_neg (by norm_num; omega), if_pos (by omega), if_neg (by omega)]
  norm_num

lemma packFinite_normalRange (e : Int) (sig : Nat) (h1 : 1 ≤ e + 1023) (h2 : e + 1023 ≤ 2046) :
    packFinite quadFmt doubleFmt e sig
      = (e + 1023).toNat * 2 ^ 52 + roundNearestEven sig 60 - 2 ^ 52 := by
  unfold packFinite
  simp only [quadFmt, doubleFmt]
  rw [if_neg (by norm_num; omega), if_neg (by omega)]
  norm_num

lemma rne_le (sig shift : Nat) : roundNearestEven sig shift ≤ sig / 2 ^ shift + 1 := by
  unfold roundNearestEven
  split <;> omega

lemma rne_ge (sig shift : Nat) : sig / 2 ^ shift ≤ roundNearestEven sig shift := by
  unfold roundNearestEven
  split <;> omega

lemma sig_div_sixty_lt (sig : Nat) (h : sig < 2 ^ 113) : sig / 2 ^ 60 < 2 ^ 53 := by
  rw [Nat.div_lt_iff_lt_mul (by positivity)]
  calc sig < 2 ^ 113 := h
    _ ≤ 2 ^ 53 * 2 ^ 60 := by norm_num

lemma sig_div_deep_lt (sig extra : Nat) (h : sig < 2 ^ 113) (hx : 1 ≤ extra) :
    sig / 2 ^ (60 + extra) < 2 ^ 52 := by
  have h1 : sig / 2 ^ (60 + extra) ≤ sig / 2 ^ 61 :=
    Nat.div_le_div_left (Nat.pow_le_pow_right (by norm_num) (by omega)) (by positivity)
  have h2 : sig / 2 ^ 61 < 2 ^ 52 := by
    rw [Nat.div_lt_iff_lt_mul (by positivity)]
    calc sig < 2 ^ 113 := h
      _ ≤ 2 ^ 52 * 2 ^ 61 := by norm_num
  omega

lemma absNarrow_lt (e m : Nat) (he : e < 2 ^ 15) (hm : m < 2 ^ 112) :
    absNarrow e m < 2 ^ 63 := by
  by_cases h0 : e = 0
  · rw [h0, absNarrow_expZero]; positivity
  by_cases htop : e = 32767
  · subst htop
    by_cases hmz : m = 0
    · rw [hmz, absNarrow_inf]; decide
    · rw [absNarrow_nan m hmz]
      unfold packNaN
      simp only [quadFmt, doubleFmt]
      show (2 ^ 11 - 1) * 2 ^ 52 + (m / 2 ^ 60 % 2 ^ 52 ||| 2 ^ 51) < 2 ^ 63
      have hq : m / 2 ^ 60 % 2 ^ 52 ||| 2 ^ 51 < 2 ^ 52 :=
        Nat.or_lt_two_pow (Nat.mod_lt _ (by positivity)) (by norm_num)
      omega
  have h1 : 1 ≤ e := by omega
  have h2 : e ≤ 32766 := by omega
  rw [absNarrow_normal e m h1 h2]
  have hsig : m + 2 ^ 112 < 2 ^ 113 := by omega
  by_cases hov : 2047 ≤ (e : Int) - 16383 + 1023
  · rw [packFinite_overflow _ _ hov]; decide
  by_cases hfl : (e : Int) - 16383 + 1023 ≤ -52
  · rw [packFinite_flush _ _ hfl]; positivity
  by_cases hsub : (e : Int) - 16383 + 1023 ≤ 0
  · rw [packFinite_subnormalRange _ _ hsub (by omega)]
    have hx : 1 ≤ (1 - ((e : Int) - 16383 + 1023)).toNat := by omega
    have hd := sig_div_deep_lt (m + 2 ^ 112) _ hsig hx
    have hr := rne_le (m + 2 ^ 112) (60 + (1 - ((e : Int) - 16383 + 1023)).toNat)
    omega
  · rw [packFinite_normalRange _ _ (by omega) (by omega)]
    have hd := sig_div_sixty_lt (m + 2 ^ 112) hsig
    have hr := rne_le (m + 2 ^ 112) 60
    have ht : ((e : Int) - 16383 + 1023).toNat ≤ 2046 := by omega
    omega

lemma rne_split (sig shift : Nat) :
    roundNearestEven sig shift
      = sig / 2 ^ shift
        + (if sig / 2 ^ (shift - 1) % 2 = 1
              ∧ (sig % 2 ^ (shift - 1) ≠ 0 ∨ sig / 2 ^ shift % 2 = 1)
           then 1 else 0) := by
  unfold roundNearestEven
  split <;> simp

lemma rne_tie_even (sig shift : Nat) (hr : sig / 2 ^ (shift - 1) % 2 = 1)
    (hst : sig % 2 ^ (shift - 1) = 0) : roundNearestEven sig shift % 2 = 0 := by
  unfold roundNearestEven
  split <;> omega

lemma rne_sixty_exact (sig : Nat) (h : sig % 2 ^ 60 = 0) :
    roundNearestEven sig 60 = sig / 2 ^ 60 := by
  have hb : ¬(sig / 2 ^ (60 - 1) % 2 = 1
      ∧ (sig % 2 ^ (60 - 1) ≠ 0 ∨ sig / 2 ^ 60 % 2 = 1)) := by
    rw [show (60 : Nat) - 1 = 59 from rfl]
    omega
  unfold roundNearestEven
  rw [if_neg hb]

lemma nanPayload_lt (m : Nat) : (m / 2 ^ 60 % 2 ^ 52 ||| 2 ^ 51) < 2 ^ 52 :=
  Nat.or_lt_two_pow (Nat.mod_lt _ (by positivity)) (by norm_num)

lemma nanPayload_ge (m : Nat) : 2 ^ 51 ≤ (m / 2 ^ 60 % 2 ^ 52 ||| 2 ^ 51) := by
  apply Nat.testBit_implies_ge
  rw [Nat.testBit_or, Nat.testBit_two_pow_self]
  simp

lemma narrow_nan (s m : Nat) (hs : s < 2) (hm0 : 0 < m) (hm : m < 2 ^ 112) :
    narrow (s * 2 ^ 127 + 32767 * 2 ^ 112 + m)
      = s * 2 ^ 63 + 2047 * 2 ^ 52 + (m / 2 ^ 60 % 2 ^ 52 ||| 2 ^ 51) := by
  rw [narrow_decomp s 32767 m hs (by norm_num) hm, absNarrow_nan m (by omega)]
  unfold packNaN
  simp only [quadFmt, doubleFmt]
  show s * 2 ^ 63 + ((2 ^ 11 - 1) * 2 ^ 52 + (m / 2 ^ 60 % 2 ^ 52 ||| 2 ^ 51))
      = s * 2 ^ 63 + 2047 * 2 ^ 52 + (m / 2 ^ 60 % 2 ^ 52 ||| 2 ^ 51)
  omega

/-- Modelled from the spec: flip of the top (sign) bit of a w-bit pattern. -/
def flipTop (w x : Nat) : Nat :=
  if x / 2 ^ (w - 1) % 2 = 0 then x + 2 ^ (w - 1) else x - 2 ^ (w - 1)

/-- C4: narrowing any source NaN forwards the sign, sets the exponent field
to all-ones, and sets the mantissa field to the source NaN mantissa bits
truncated to 52 bits with the top mantissa bit forced to 1; the result is
always classified as NaN (exponent field all-ones, mantissa field nonzero),
never Infinity, even when the retained payload bits are all zero. -/
theorem claim_C4_nan_payload (s m : Nat) (hs : s < 2) (hm0 : 0 < m) (hm : m < 2 ^ 112) :
    narrow (s * 2 ^ 127 + 32767 * 2 ^ 112 + m)
        = s * 2 ^ 63 + 2047 * 2 ^ 52 + (m / 2 ^ 60 % 2 ^ 52 ||| 2 ^ 51)
      ∧ narrow (s * 2 ^ 127 + 32767 * 2 ^ 112 + m) / 2 ^ 52 % 2 ^ 11 = 2047
      ∧ narrow (s * 2 ^ 127 + 32767 * 2 ^ 112 + m) % 2 ^ 52 ≠ 0 := by
  have h := narrow_nan s m hs hm0 hm
  have h1 := nanPayload_lt m
  have h2 := nanPayload_ge m
  refine ⟨h, ?_, ?_⟩ <;> rw [h] <;> omega

/-- Witness for C4 at the NaN whose payload truncates to all-zero retained
bits: the quiet bit is forced and the result stays a NaN. -/
theorem claim_C4_witness :
    ((0 : Nat) < 2 ∧ (0 : Nat) < 1 ∧ (1 : Nat) < 2 ^ 112)
      ∧ (narrow (0 * 2 ^ 127 + 32767 * 2 ^ 112 + 1)
            = 0 * 2 ^ 63 + 2047 * 2 ^ 52 + (1 / 2 ^ 60 % 2 ^ 52 ||| 2 ^ 51)
          ∧ narrow (0 * 2 ^ 127 + 32767 * 2 ^ 112 + 1) / 2 ^ 52 % 2 ^ 11 = 2047
          ∧ narrow (0 * 2 ^ 127 + 32767 * 2 ^ 112 + 1) % 2 ^ 52 ≠ 0) :=
  ⟨⟨by norm_num, by norm_num, by norm_num⟩,
    claim_C4_nan_payload 0 1 (by norm_num) (by norm_num) (by norm_num)⟩

/-- C5: narrow maps +Infinity to +Infinity and -Infinity to -Infinity
(exponent field all-ones, mantissa field zero, sign forwarded), and every
source NaN to a value classified as NaN in the destination format. -/
theorem claim_C5_special_values :
    narrow (32767 * 2 ^ 112) = 2047 * 2 ^ 52
      ∧ narrow (2 ^ 127 + 32767 * 2 ^ 112) = 2 ^ 63 + 2047 * 2 ^ 52
      ∧ ∀ s m, s < 2 → 0 < m → m < 2 ^ 112 →
          narrow (s * 2 ^ 127 + 32767 * 2 ^ 112 + m) / 2 ^ 52 % 2 ^ 11 = 2047
            ∧ narrow (s * 2 ^ 127 + 32767 * 2 ^ 112 + m) % 2 ^ 52 ≠ 0 := by
  refine ⟨by decide, by decide, ?_⟩
  intro s m hs hm0 hm
  have h := narrow_nan s m hs hm0 hm
  have h1 := nanPayload_lt m
  have h2 := nanPayload_ge m
  constructor <;> rw [h] <;> omega

/-- Witness for C5: the universally quantified NaN component applied to a
concrete negative NaN. -/
theorem claim_C5_witness :
    narrow (1 * 2 ^ 127 + 32767 * 2 ^ 112 + 5) / 2 ^ 52 % 2 ^ 11 = 2047
      ∧ narrow (1 * 2 ^ 127 + 32767 * 2 ^ 112 + 5) % 2 ^ 52 ≠ 0 :=
  claim_C5_special_values.2.2 1 5 (by norm_num) (by norm_num) (by norm_num)

/-- C6: a source value whose exponent lies in the destination normal range
and whose mantissa has no nonzero bits below the 52-bit destination
precision narrows to exactly the destination encoding of the same value:
sign forwarded, exponent rebiased, mantissa truncated with no rounding. -/
theorem claim_C6_exactness (s e m : Nat) (hs : s < 2) (he1 : 15361 ≤ e) (he2 : e ≤ 17406)
    (hm : m < 2 ^ 112) (hexact : m % 2 ^ 60 = 0) :
    narrow (s * 2 ^ 127 + e * 2 ^ 112 + m)
      = s * 2 ^ 63 + (e - 15360) * 2 ^ 52 + m / 2 ^ 60 := by
  rw [narrow_decomp s e m hs (by omega) hm,
      absNarrow_normal e m (by omega) (by omega),
      packFinite_normalRange _ _ (by omega) (by omega),
      rne_sixty_exact _ (by omega)]
  have hdiv : (m + 2 ^ 112) / 2 ^ 60 = m / 2 ^ 60 + 2 ^ 52 := by omega
  omega

/-- Witness for C6 at the quad encoding of 1.0, which narrows to the
textbook double pattern for 1.0. -/
theorem claim_C6_witness :
    ((0 : Nat) < 2 ∧ (15361 : Nat) ≤ 16383 ∧ (16383 : Nat) ≤ 17406
        ∧ (0 : Nat) < 2 ^ 112 ∧ (0 : Nat) % 2 ^ 60 = 0)
      ∧ narrow (0 * 2 ^ 127 + 16383 * 2 ^ 112 + 0)
          = 0 * 2 ^ 63 + (16383 - 15360) * 2 ^ 52 + 0 / 2 ^ 60 :=
  ⟨⟨by norm_num, by norm_num, by norm_num, by positivity, by norm_num⟩,
    claim_C6_exactness 0 16383 0 (by norm_num) (by norm_num) (by norm_num)
      (by positivity) (by norm_num)⟩

/-- C7: the top (sign) bit of the narrowed result always equals the top bit
of the 128-bit source pattern, for zeros, subnormals, normals, infinities
and NaN inputs alike. -/
theorem claim_C7_sign_preservation (x : Nat) (hx : x < 2 ^ 128) :
    narrow x / 2 ^ 63 % 2 = x / 2 ^ 127 % 2 := by
  obtain ⟨s, e, m, hs, he, hm, rfl⟩ := decomp_exists x hx
  rw [narrow_decomp s e m hs he hm]
  have h := absNarrow_lt e m he hm
  omega

/-- Witness for C7 at the negative zero pattern. -/
theorem claim_C7_witness :
    (2 ^ 127 : Nat) < 2 ^ 128 ∧ narrow (2 ^ 127) / 2 ^ 63 % 2 = (2 ^ 127 : Nat) / 2 ^ 127 % 2 :=
  ⟨by norm_num, claim_C7_sign_preservation (2 ^ 127) (by norm_num)⟩

/-- C8: narrow is total: every 128-bit source pattern produces a defined
64-bit destination pattern; no trap, signal or error branch exists in the
model, and the result always fits in 64 bits. -/
theorem claim_C8_totality (x : Nat) (hx : x < 2 ^ 128) : narrow x < 2 ^ 64 := by
  obtain ⟨s, e, m, hs, he, hm, rfl⟩ := decomp_exists x hx
  rw [narrow_decomp s e m hs he hm]
  have h := absNarrow_lt e m he hm
  omega

/-- Witness for C8 at the all-ones source pattern. -/
theorem claim_C8_witness :
    (2 ^ 128 - 1 : Nat) < 2 ^ 128 ∧ narrow (2 ^ 128 - 1) < 2 ^ 64 :=
  ⟨by norm_num, claim_C8_totality (2 ^ 128 - 1) (by norm_num)⟩

/-- C9: every source with zero exponent field, that is both signed zeros and
every quad subnormal, narrows to the signed zero of the same sign. -/
theorem claim_C9_exponent_field_zero (s m : Nat) (hs : s < 2) (hm : m < 2 ^ 112) :
    narrow (s * 2 ^ 127 + m) = s * 2 ^ 63 := by
  have h := narrow_decomp s 0 m hs (by norm_num) hm
  rw [absNarrow_expZero] at h
  simpa using h

/-- Witness for C9 at the largest negative quad subnormal. -/
theorem claim_C9_witness :
    ((1 : Nat) < 2 ∧ (2 ^ 112 - 1 : Nat) < 2 ^ 112)
      ∧ narrow (1 * 2 ^ 127 + (2 ^ 112 - 1)) = 1 * 2 ^ 63 :=
  ⟨⟨by norm_num, by norm_num⟩,
    claim_C9_exponent_field_zero 1 (2 ^ 112 - 1) (by norm_num) (by norm_num)⟩

/-- C10: narrow commutes with flipping the sign bit, and the low 63 result
bits depend only on the low 127 source bits. -/
theorem claim_C10_sign_equivariance (x : Nat) (hx : x < 2 ^ 128) :
    narrow (flipTop 128 x) = flipTop 64 (narrow x)
      ∧ narrow x % 2 ^ 63 = narrow (x % 2 ^ 127) % 2 ^ 63 := by
  obtain ⟨s, e, m, hs, he, hm, rfl⟩ := decomp_exists x hx
  have hA := absNarrow_lt e m he hm
  have h0 := narrow_decomp 0 e m (by norm_num) he hm
  have h1 := narrow_decomp 1 e m (by norm_num) he hm
  have hxx := narrow_decomp s e m hs he hm
  constructor
  · unfold flipTop
    obtain rfl | rfl : s = 0 ∨ s = 1 := by omega
    · rw [if_pos (by omega), if_pos (by rw [hxx]; omega),
          (by ring : 0 * 2 ^ 127 + e * 2 ^ 112 + m + 2 ^ (128 - 1)
            = 1 * 2 ^ 127 + e * 2 ^ 112 + m), h1, hxx]
      omega
    · rw [if_neg (by omega), if_neg (by rw [hxx]; omega),
          (by omega : 1 * 2 ^ 127 + e * 2 ^ 112 + m - 2 ^ (128 - 1)
            = 0 * 2 ^ 127 + e * 2 ^ 112 + m), h0, hxx]
      omega
  · rw [(by omega : (s * 2 ^ 127 + e * 2 ^ 112 + m) % 2 ^ 127
        = 0 * 2 ^ 127 + e * 2 ^ 112 + m), h0, hxx]
    omega

/-- Witness for C10 at the quad encoding of 1.0. -/
theorem claim_C10_witness :
    (16383 * 2 ^ 112 : Nat) < 2 ^ 128
      ∧ (narrow (flipTop 128 (16383 * 2 ^ 112)) = flipTop 64 (narrow (16383 * 2 ^ 112))
          ∧ narrow (16383 * 2 ^ 112) % 2 ^ 63 = narrow (16383 * 2 ^ 112 % 2 ^ 127) % 2 ^ 63) :=
  ⟨by norm_num, claim_C10_sign_equivariance (16383 * 2 ^ 112) (by norm_num)⟩

/-- C1: for a finite normal source whose value actually reaches the rounding
step (no overflow, no flush to zero), the truncated mantissa is incremented
by exactly 1 if and only if the round bit (highest discarded bit) is 1 and
either the sticky bit (or of all lower discarded bits) is 1 or the lowest
retained mantissa bit is 1; and a value exactly halfway (round bit 1,
sticky 0) always lands on an even low mantissa bit. -/
theorem claim_C1_round_to_nearest_even (s e m : Nat) (hs : s < 2)
    (he1 : 15309 ≤ e) (he2 : e ≤ 17406) (hm : m < 2 ^ 112) :
    narrow (s * 2 ^ 127 + e * 2 ^ 112 + m)
        = s * 2 ^ 63 + (e - 15361) * 2 ^ 52
          + (m + 2 ^ 112) / 2 ^ (60 + (15361 - e))
          + (if (m + 2 ^ 112) / 2 ^ (60 + (15361 - e) - 1) % 2 = 1
                ∧ ((m + 2 ^ 112) % 2 ^ (60 + (15361 - e) - 1) ≠ 0
                    ∨ (m + 2 ^ 112) / 2 ^ (60 + (15361 - e)) % 2 = 1)
             then 1 else 0)
      ∧ ((m + 2 ^ 112) / 2 ^ (60 + (15361 - e) - 1) % 2 = 1
          ∧ (m + 2 ^ 112) % 2 ^ (60 + (15361 - e) - 1) = 0
          → narrow (s * 2 ^ 127 + e * 2 ^ 112 + m) % 2 = 0) := by
  rw [narrow_decomp s e m hs (by omega) hm, absNarrow_normal e m (by omega) (by omega)]
  by_cases hbr : e ≤ 15360
  · rw [packFinite_subnormalRange _ _ (by omega) (by omega),
        (by omega : (1 - ((e : Int) - 16383 + 1023)).toNat = 15361 - e)]
    constructor
    · rw [rne_split]
      omega
    · rintro ⟨h1, h2⟩
      have ht := rne_tie_even (m + 2 ^ 112) (60 + (15361 - e)) h1 h2
      omega
  · rw [packFinite_normalRange _ _ (by omega) (by omega),
        (by omega : 60 + (15361 - e) = 60)]
    have ht52 : 2 ^ 52 ≤ (m + 2 ^ 112) / 2 ^ 60 := by omega
    constructor
    · rw [rne_split]
      omega
    · rintro ⟨h1, h2⟩
      have ht := rne_tie_even (m + 2 ^ 112) 60 h1 h2
      have hrge := rne_ge (m + 2 ^ 112) 60
      omega

/-- Witness for C1 at the quad value 1 + 2^-53, exactly halfway between two
doubles with round bit 1 and sticky 0: the tie resolves to the even
neighbour 1.0. -/
theorem claim_C1_witness :
    ((0 : Nat) < 2 ∧ (15309 : Nat) ≤ 16383 ∧ (16383 : Nat) ≤ 17406 ∧ (2 ^ 59 : Nat) < 2 ^ 112)
      ∧ (narrow (0 * 2 ^ 127 + 16383 * 2 ^ 112 + 2 ^ 59)
            = 0 * 2 ^ 63 + (16383 - 15361) * 2 ^ 52
              + (2 ^ 59 + 2 ^ 112) / 2 ^ (60 + (15361 - 16383))
              + (if (2 ^ 59 + 2 ^ 112) / 2 ^ (60 + (15361 - 16383) - 1) % 2 = 1
                    ∧ ((2 ^ 59 + 2 ^ 112) % 2 ^ (60 + (15361 - 16383) - 1) ≠ 0
                        ∨ (2 ^ 59 + 2 ^ 112) / 2 ^ (60 + (15361 - 16383)) % 2 = 1)
                 then 1 else 0)
          ∧ ((2 ^ 59 + 2 ^ 112) / 2 ^ (60 + (15361 - 16383) - 1) % 2 = 1
              ∧ (2 ^ 59 + 2 ^ 112) % 2 ^ (60 + (15361 - 16383) - 1) = 0
              → narrow (0 * 2 ^ 127 + 16383 * 2 ^ 112 + 2 ^ 59) % 2 = 0)) :=
  ⟨⟨by norm_num, by norm_num, by norm_num, by norm_num⟩,
    claim_C1_round_to_nearest_even 0 16383 (2 ^ 59) (by norm_num) (by norm_num)
      (by norm_num) (by norm_num)⟩

/-- C2 counterexample: the quad encoding of 2^1023 has rebased destination
exponent exactly 2046, the maximum finite destination exponent code, yet
narrow returns the finite maximal-exponent double 2^1023, not Infinity: the
overflow threshold of the claim is off by one. -/
theorem claim_C2_counterexample :
    (2046 : Int) ≤ (17406 : Int) - 16383 + 1023
      ∧ narrow (17406 * 2 ^ 112) = 2046 * 2 ^ 52
      ∧ narrow (17406 * 2 ^ 112) ≠ 2047 * 2 ^ 52 :=
  ⟨by norm_num, by decide, by decide⟩

/-- C2 amended: a finite source narrows to the signed Infinity pattern when
the rebased destination exponent is at least 2047 (the all-ones exponent
code, one past the maximum finite code 2046), and also when the rebased
exponent is exactly 2046 and the round-up carry out of the mantissa pushes
the exponent past the maximum. -/
theorem claim_C2_overflow (s e m : Nat) (hs : s < 2) (he1 : 1 ≤ e) (he2 : e ≤ 32766)
    (hm : m < 2 ^ 112)
    (hover : 17407 ≤ e
      ∨ (e = 17406 ∧ (m + 2 ^ 112) / 2 ^ 60 = 2 ^ 53 - 1
          ∧ (m + 2 ^ 112) / 2 ^ 59 % 2 = 1)) :
    narrow (s * 2 ^ 127 + e * 2 ^ 112 + m) = s * 2 ^ 63 + 2047 * 2 ^ 52 := by
  rw [narrow_decomp s e m hs (by omega) hm, absNarrow_normal e m he1 he2]
  rcases hover with h | ⟨rfl, ht, hr⟩
  · rw [packFinite_overflow _ _ (by omega)]
  · rw [packFinite_normalRange _ _ (by omega) (by omega)]
    have hc : (m + 2 ^ 112) / 2 ^ (60 - 1) % 2 = 1
        ∧ ((m + 2 ^ 112) % 2 ^ (60 - 1) ≠ 0 ∨ (m + 2 ^ 112) / 2 ^ 60 % 2 = 1) := by
      constructor
      · rw [show (60 : Nat) - 1 = 59 from rfl]
        exact hr
      · right
        omega
    unfold roundNearestEven
    rw [if_pos hc]
    omega

/-- Witness for C2 at a quad value with unbiased exponent 1024, one past the
maximum finite double exponent. -/
theorem claim_C2_witness :
    ((0 : Nat) < 2 ∧ (1 : Nat) ≤ 17407 ∧ (17407 : Nat) ≤ 32766 ∧ (0 : Nat) < 2 ^ 112)
      ∧ narrow (0 * 2 ^ 127 + 17407 * 2 ^ 112 + 0) = 0 * 2 ^ 63 + 2047 * 2 ^ 52 :=
  ⟨⟨by norm_num, by norm_num, by norm_num, by positivity⟩,
    claim_C2_overflow 0 17407 0 (by norm_num) (by norm_num) (by norm_num) (by positivity)
      (Or.inl (by norm_num))⟩

/-- C3 counterexample: the quad value with unbiased exponent -1023 (inside
the claimed subnormal band) and an all-ones mantissa rounds up with a carry
out of the 52-bit mantissa field: the result is the smallest normal double,
whose stored exponent field is 1, not 0 as the claim states. -/
theorem claim_C3_counterexample :
    narrow (15360 * 2 ^ 112 + (2 ^ 112 - 1)) = 2 ^ 52
      ∧ narrow (15360 * 2 ^ 112 + (2 ^ 112 - 1)) / 2 ^ 52 % 2 ^ 11 = 1 :=
  ⟨by decide, by decide⟩

/-- C3 amended: a source with unbiased exponent below -1074 (exponent field
at most 15308, including zeros and quad subnormals) narrows to signed zero;
a normal source with unbiased exponent between -1074 and -1023 (exponent
field 15309..15360) narrows to the subnormal obtained by shifting the
mantissa right by 1 - destExponent additional bits and rounding, with
stored exponent field 0 - except that a round-up carry out of the 52-bit
mantissa field yields exactly the smallest normal (exponent field 1,
mantissa field 0), the rounded pattern never exceeding 2^52. -/
theorem claim_C3_underflow (s e m : Nat) (hs : s < 2) (hm : m < 2 ^ 112) (he : e ≤ 15360) :
    (e ≤ 15308 → narrow (s * 2 ^ 127 + e * 2 ^ 112 + m) = s * 2 ^ 63)
      ∧ (15309 ≤ e →
          narrow (s * 2 ^ 127 + e * 2 ^ 112 + m)
              = s * 2 ^ 63 + roundNearestEven (m + 2 ^ 112) (60 + (15361 - e))
            ∧ roundNearestEven (m + 2 ^ 112) (60 + (15361 - e)) ≤ 2 ^ 52) := by
  constructor
  · intro hle
    by_cases h0 : e = 0
    · subst h0
      have h := narrow_decomp s 0 m hs (by norm_num) hm
      rw [absNarrow_expZero] at h
      rw [h]
      omega
    · rw [narrow_decomp s e m hs (by omega) hm, absNarrow_normal e m (by omega) (by omega),
          packFinite_flush _ _ (by omega)]
      omega
  · intro hge
    rw [narrow_decomp s e m hs (by omega) hm, absNarrow_normal e m (by omega) (by omega),
        packFinite_subnormalRange _ _ (by omega) (by omega),
        (by omega : (1 - ((e : Int) - 16383 + 1023)).toNat = 15361 - e)]
    refine ⟨rfl, ?_⟩
    have h1 := rne_le (m + 2 ^ 112) (60 + (15361 - e))
    have h2 := sig_div_deep_lt (m + 2 ^ 112) (15361 - e) (by omega) (by omega)
    omega

/-- Witness for C3 at the quad encoding of 2^-1074, which narrows to the
smallest positive double subnormal. -/
theorem claim_C3_witness :
    ((0 : Nat) < 2 ∧ (0 : Nat) < 2 ^ 112 ∧ (15309 : Nat) ≤ 15360)
      ∧ (((15309 : Nat) ≤ 15308 → narrow (0 * 2 ^ 127 + 15309 * 2 ^ 112 + 0) = 0 * 2 ^ 63)
          ∧ ((15309 : Nat) ≤ 15309 →
              narrow (0 * 2 ^ 127 + 15309 * 2 ^ 112 + 0)
                  = 0 * 2 ^ 63 + roundNearestEven (0 + 2 ^ 112) (60 + (15361 - 15309))
                ∧ roundNearestEven (0 + 2 ^ 112) (60 + (15361 - 15309)) ≤ 2 ^ 52)) :=
  ⟨⟨by norm_num, by positivity, by norm_num⟩,
    claim_C3_underflow 0 15309 0 (by norm_num) (by positivity) (by norm_num)⟩
